import Mathlib

/-
Verification of the glossary-checking engine of this repository.

The main embedding target is `.github/scripts/check_glossary.py`:
`find_msgstr_line_range`, `format_msgstr_for_suggestion` and the per-entry
logic of `check_po_file` (strategy 1 exact match, strategy 2 sentence match,
line-range resolution, duplicate suppression).  `load_glossary` of
`.github/scripts/check_po_glossary.py` is embedded as well.

Text is modelled as `List Char`.  Python string operations used by the code
(`replace`, `split`, `strip`, `startswith`, `endswith`, `str.lower` and
`re` searches of escaped literals) are given as executable functions on
`List Char`.  Case folding and word/whitespace character classes are
modelled at ASCII granularity, which agrees with Python on the ASCII data
the scripts process.
-/

set_option maxHeartbeats 1000000

abbrev Str := List Char

/-- Leading-whitespace capture: Python
`line[:len(line) - len(line.lstrip())]` is the longest whitespace prefix. -/
def lwOf (l : Str) : Str := l.takeWhile Char.isWhitespace

/-- Python `str.strip()`: drop whitespace from both ends. -/
def pyStrip (l : Str) : Str :=
  ((l.dropWhile Char.isWhitespace).reverse.dropWhile Char.isWhitespace).reverse

/-- Apply a character-to-string substitution to every character (used to
reason about single-character `str.replace` calls). -/
def escMap (f : Char → Str) : Str → Str
  | [] => []
  | c :: cs => f c ++ escMap f cs

/-- Python `sep.join(ls)` for a separator string. -/
def joinSep (sep : Str) : List Str → Str
  | [] => []
  | [l] => l
  | l :: l2 :: rest => l ++ sep ++ joinSep sep (l2 :: rest)

/-- Concatenation of a list of strings. -/
def concatAll : List Str → Str
  | [] => []
  | l :: rest => l ++ concatAll rest

/-- Python `s.split(sep)` for a one-character separator: always returns a
non-empty list, `"".split(sep) == [""]`. -/
def pySplit (sep : Char) : Str → List Str
  | [] => [[]]
  | c :: cs =>
    match pySplit sep cs with
    | [] => [[]]
    | r :: rs => if c = sep then [] :: r :: rs else (c :: r) :: rs

/-- Scanner of Python `str.replace` for a non-empty pattern: replace every
non-overlapping occurrence, scanning left to right.  On a match the
replacement is emitted, the first matched character is consumed, and the
counter swallows the remaining `old.length - 1` matched characters without
emitting or re-testing them. -/
def replaceGo (old new : Str) : Str → Nat → Str
  | [], _ => []
  | _ :: cs, Nat.succ k => replaceGo old new cs k
  | c :: cs, 0 =>
    if old.isPrefixOf (c :: cs) then new ++ replaceGo old new cs (old.length - 1)
    else c :: replaceGo old new cs 0

/-- Python `s.replace(old, new)`: all occorrences, with Python's convention
for the empty pattern (`"ab".replace("", "-") == "-a-b-"`). -/
def pyReplace (s old new : Str) : Str :=
  match old with
  | [] => new ++ escMap (fun c => c :: new) s
  | o :: os => replaceGo (o :: os) new s 0

/-- `format_msgstr_for_suggestion` of check_glossary.py: escape `\` then
`"`, and either emit one `msgstr "..."` line or an opening `msgstr ""`
followed by one quoted continuation line per segment, each ending in a
literal `\n` except the last. -/
def format_msgstr_for_suggestion (text leading_whitespace : Str) : Str :=
  let escaped_text := pyReplace (pyReplace text ['\\'] ['\\', '\\']) ['"'] ['\\', '"']
  let ls := pySplit '\n' escaped_text
  if ls.length = 1 then
    leading_whitespace ++ ("msgstr \"").toList ++ ls.headD [] ++ ['"']
  else
    let formatted_lines := (leading_whitespace ++ ("msgstr \"\"").toList)
      :: ls.map (fun line => leading_whitespace ++ ['"'] ++ line ++ ['\\', 'n', '"'])
    let last := formatted_lines.getLastD []
    let fixed := formatted_lines.dropLast ++ [last.take (last.length - 3) ++ ['"']]
    joinSep ['\n'] fixed

/-- PO-style unescaping of a quoted fragment: `\\`, `\"`, `\n` become
backslash, quote, newline; other escapes are kept verbatim. -/
def unescapePo : Str → Str
  | [] => []
  | c :: rest =>
    if c = '\\' then
      match rest with
      | [] => ['\\']
      | d :: rest2 =>
        (if d = 'n' then ['\n'] else if d = '\\' then ['\\']
         else if d = '"' then ['"'] else ['\\', d]) ++ unescapePo rest2
    else c :: unescapePo rest

/-- Content of a physical line between its first and last quote character. -/
def quotedContent (l : Str) : Str :=
  let a := (l.dropWhile (fun c => c != '"')).drop 1
  ((a.reverse.dropWhile (fun c => c != '"')).drop 1).reverse

/-- Modelled from the spec: the external catalog parser's reading of an
emitted msgstr block (the PO multi-line string convention, §4.4): split the
block into physical lines, take each line's content between its first and
last quote, unescape it, and concatenate the fragments.  The actual parser
(polib) is an external collaborator and not part of this repository. -/
def parse_msgstr_block (block : Str) : Str :=
  concatAll ((pySplit '\n' block).map (fun l => unescapePo (quotedContent l)))

/-- Word characters of the regex `\b` boundary (ASCII granularity). -/
def isWordChar (c : Char) : Bool := c.isAlphanum || c = '_'

/-- Whether the character at index `i` exists and is a word character. -/
def wordAt (s : Str) (i : Nat) : Bool :=
  match s.drop i with
  | [] => false
  | c :: _ => isWordChar c

/-- Regex `\b`: position `p` of `s` is a word boundary. -/
def boundaryAt (s : Str) (p : Nat) : Bool :=
  (decide (0 < p) && wordAt s (p - 1)) != wordAt s p

/-- The literal pattern matches at position `i`, case-insensitively. -/
def matchAt (pat s : Str) (i : Nat) : Bool :=
  ((s.drop i).take pat.length).map Char.toLower == pat.map Char.toLower

/-- `re.search(r'\b' + re.escape(pat) + r'\b', s, re.IGNORECASE)`:
some position carries a case-insensitive literal match with word
boundaries on both sides. -/
def wordBoundarySearch (pat s : Str) : Bool :=
  (List.range (s.length + 1)).any
    (fun i => boundaryAt s i && matchAt pat s i && boundaryAt s (i + pat.length))

/-- Substring test: `pat` occurs contiguously inside `s`. -/
def containsSub (s pat : Str) : Bool :=
  (List.range (s.length + 1)).any (fun i => pat.isPrefixOf (s.drop i))

/-- `re.search(re.escape(pat), s, re.IGNORECASE)`: case-insensitive
substring test. -/
def ciContains (s pat : Str) : Bool :=
  containsSub (s.map Char.toLower) (pat.map Char.toLower)

/-- A line whose stripped content starts with `msgstr`. -/
def isMsgstrLine (l : Str) : Bool := ("msgstr").toList.isPrefixOf (pyStrip l)

/-- A line whose stripped content both starts and ends with `"`. -/
def isContinuationLine (l : Str) : Bool :=
  (['"'].isPrefixOf (pyStrip l)) && (['"'].isSuffixOf (pyStrip l))

/-- First loop of `find_msgstr_line_range`: 0-based index of the first
`msgstr` line, scanning a suffix of the file whose head has index `i`. -/
def findMsgstrIdx : List Str → Nat → Option Nat
  | [], _ => none
  | l :: rest, i => if isMsgstrLine l then some i else findMsgstrIdx rest (i + 1)

/-- Second loop of `find_msgstr_line_range`: extend the end line over
continuation lines; `i` is the 0-based index of the suffix head, `e` the
current 1-based end line. -/
def extendEnd : List Str → Nat → Nat → Nat
  | [], _, e => e
  | l :: rest, i, e => if isContinuationLine l then extendEnd rest (i + 1) (i + 1) else e

/-- `find_msgstr_line_range` with the not-found sentinel expressed as
`none`; a result `some (s, e)` is the pair of 1-based line numbers. -/
def findRangeCore (lines : List Str) (start_linenum : Nat) : Option (Nat × Nat) :=
  match findMsgstrIdx (lines.drop (start_linenum - 1)) (start_linenum - 1) with
  | none => none
  | some i => some (i + 1, extendEnd (lines.drop (i + 1)) (i + 1) (i + 1))

/-- `find_msgstr_line_range` of check_glossary.py, returning `(-1, -1)`
when no `msgstr` line is found at or after `start_linenum`. -/
def find_msgstr_line_range (lines : List Str) (start_linenum : Nat) : Int × Int :=
  match findRangeCore lines start_linenum with
  | none => (-1, -1)
  | some (s, e) => ((s : Int), (e : Int))

structure GlossaryTerm where
  source : Str
  target : Str
  common_errors : List Str
deriving DecidableEq

structure POEntry where
  msgid : Str
  msgstr : Str
  linenum : Nat
  obsolete : Bool
deriving DecidableEq

structure Comment where
  path : Str
  start_line : Nat
  end_line : Nat
  body : Str
deriving DecidableEq

/-- The strategy-1 reason string for a known common error. -/
def kKnownError : Str := ("是已知的常見錯誤").toList

/-- The strategy-1 reason string for a plain policy deviation. -/
def kPolicyDeviation : Str := ("不符合術語表規範").toList

/-- Body of a strategy-1 (exact match) suggestion comment. -/
def exactMatchBody (msgid msgstr reason target block : Str) : Str :=
  ("術語 `").toList ++ msgid ++ ("` 的翻譯 `").toList ++ msgstr ++ ("` ").toList
    ++ reason ++ ("。\n建議更正為 `").toList ++ target
    ++ ("`。\n```suggestion\n").toList ++ block ++ ("\n```").toList

/-- Body of a strategy-2 (sentence term) suggestion comment. -/
def sentenceBody (found_error source target block : Str) : Str :=
  ("此句中的術語 `").toList ++ found_error ++ ("` 可能是 `").toList ++ source
    ++ ("` 的不正確翻譯。\n建議修正為 `").toList ++ target
    ++ ("`。\n```suggestion\n").toList ++ block ++ ("\n```").toList

/-- Strategy 2 of `check_po_file`: scan the ordered glossary list; for a
term whose source word-matches the entry id, take the first common error
found case-insensitively in the translation; if it is truthy and the
target is absent, resolve the line range, apply duplicate suppression
(`continue` on a hit) and otherwise emit one suggestion and stop. -/
def strategy2 (file_path : Str) (existing : List (Str × Nat)) (lines : List Str)
    (e : POEntry) : List GlossaryTerm → List Comment
  | [] => []
  | term :: rest =>
    if wordBoundarySearch term.source e.msgid then
      match term.common_errors.find? (fun er => ciContains e.msgstr er) with
      | some found_error =>
        if found_error ≠ [] ∧ ciContains e.msgstr term.target = false then
          match findRangeCore lines e.linenum with
          | none => strategy2 file_path existing lines e rest
          | some (s, en) =>
            if (file_path, en) ∈ existing then strategy2 file_path existing lines e rest
            else
              let corrected_msgstr := pyReplace e.msgstr found_error term.target
              let leading_whitespace := lwOf (lines.getD (s - 1) [])
              let suggested_block := format_msgstr_for_suggestion corrected_msgstr leading_whitespace
              [⟨file_path, s, en, sentenceBody found_error term.source term.target suggested_block⟩]
        else strategy2 file_path existing lines e rest
      | none => strategy2 file_path existing lines e rest
    else strategy2 file_path existing lines e rest

/-- The per-entry body of the `check_po_file` loop: skip empty or obsolete
entries; strategy 1 (exact key match) first — on a mismatch the entry is
finished whether or not a suggestion survives range resolution and
duplicate suppression — otherwise fall through to strategy 2. -/
def check_entry (file_path : Str) (glossary_map : Str → Option GlossaryTerm)
    (glossary_list : List GlossaryTerm) (existing : List (Str × Nat))
    (lines : List Str) (e : POEntry) : List Comment :=
  if e.msgid = [] ∨ e.msgstr = [] ∨ e.obsolete = true then []
  else
    match glossary_map e.msgid with
    | some term_data =>
      if e.msgstr ≠ term_data.target then
        match findRangeCore lines e.linenum with
        | none => []
        | some (s, en) =>
          if (file_path, en) ∈ existing then []
          else
            let leading_whitespace := lwOf (lines.getD (s - 1) [])
            let suggested_block := format_msgstr_for_suggestion term_data.target leading_whitespace
            let reason := if e.msgstr ∈ term_data.common_errors then kKnownError else kPolicyDeviation
            [⟨file_path, s, en, exactMatchBody e.msgid e.msgstr reason term_data.target suggested_block⟩]
      else strategy2 file_path existing lines e glossary_list
    | none => strategy2 file_path existing lines e glossary_list

/-- `check_po_file` of check_glossary.py on already-parsed input: the
ordered concatenation of the per-entry results. -/
def check_po_file (file_path : Str) (glossary_map : Str → Option GlossaryTerm)
    (glossary_list : List GlossaryTerm) (existing : List (Str × Nat))
    (lines : List Str) (entries : List POEntry) : List Comment :=
  (entries.map (check_entry file_path glossary_map glossary_list existing lines)).flatten

/-- A raw glossary record of check_po_glossary.py: `term.get('source')`,
`term.get('correct')` may be absent (`none`), `term.get('mistakes', [])`
defaults to the empty list. -/
structure RawTerm where
  source : Option Str
  correct : Option Str
  mistakes : List Str
deriving DecidableEq

/-- Python dict assignment `m[k] = v`: overwrite in place or append. -/
def dictInsert (m : List (Str × Str × Str)) (k : Str) (v : Str × Str) : List (Str × Str × Str) :=
  match m with
  | [] => [(k, v.1, v.2)]
  | (k2, v2) :: rest => if k2 = k then (k, v.1, v.2) :: rest else (k2, v2) :: dictInsert rest k v

/-- `load_glossary` of check_po_glossary.py: build the mistake map,
silently skipping (`continue`) records whose source or correct field is
missing or empty, and skipping empty mistake strings. -/
def load_glossary (glossary_data : List RawTerm) : List (Str × Str × Str) :=
  glossary_data.foldl (fun mistake_map term =>
    match term.source, term.correct with
    | some source, some correct =>
      if source = [] ∨ correct = [] then mistake_map
      else term.mistakes.foldl
        (fun m mistake => if mistake ≠ [] then dictInsert m mistake (source, correct) else m)
        mistake_map
    | _, _ => mistake_map) []

/-- The per-character effect of the two escaping passes of
`format_msgstr_for_suggestion` (backslash first, then quote). -/
def escChar (c : Char) : Str :=
  if c = '\\' then ['\\', '\\'] else if c = '"' then ['\\', '"'] else [c]
/-- Concrete file used to exercise the line-range resolver: the `msgstr`
block spans physical lines 3-5. -/
def linesA : List Str :=
  [("# c").toList, ("msgid \"x\"").toList, ("msgstr \"\"").toList,
   ("\"a\"").toList, ("\"b\"").toList, ("next").toList]

/-- The glossary term of spec §8: Pull Request / 拉取請求 with the known
error 合併請求. -/
def termPR : GlossaryTerm :=
  ⟨("Pull Request").toList, ("拉取請求").toList, [("合併請求").toList]⟩

/-- A keyed glossary map holding exactly `termPR`. -/
def gmapPR : Str → Option GlossaryTerm :=
  fun s => if s = ("Pull Request").toList then some termPR else none

/-- The empty glossary map. -/
def gmapNone : Str → Option GlossaryTerm := fun _ => none

/-- One-line file whose translation is the known error. -/
def linesPR : List Str := [("msgstr \"合併請求\"").toList]

/-- Entry whose id is exactly the glossary key and whose translation is the
known error (spec §8.1). -/
def entryPRbad : POEntry := ⟨("Pull Request").toList, ("合併請求").toList, 1, false⟩

/-- Entry whose id is exactly the glossary key and whose translation is the
canonical target (spec §8.2). -/
def entryPRgood : POEntry := ⟨("Pull Request").toList, ("拉取請求").toList, 1, false⟩

/-- One-line file whose translation contains the known error twice. -/
def linesTwice : List Str := [("msgstr \"合併請求，合併請求\"").toList]

/-- Sentence entry containing the known error twice. -/
def entryTwice : POEntry :=
  ⟨("Please submit a Pull Request for review.").toList,
   ("合併請求，合併請求").toList, 1, false⟩

/-- Glossary term whose known error `ABC` differs in letter case from the
text it is meant to match. -/
def termABC : GlossaryTerm :=
  ⟨("Pull Request").toList, ("拉取請求").toList, [("ABC").toList]⟩

/-- One-line file whose translation contains `abc` in lower case only. -/
def linesABC : List Str := [("msgstr \"xx abc yy\"").toList]

/-- Sentence entry whose translation contains the known error only in a
differing letter case. -/
def entryABC : POEntry :=
  ⟨("Please submit a Pull Request for review.").toList, ("xx abc yy").toList, 1, false⟩

/-- Entry whose id contains `cat` only inside the larger word
`caterpillar` (spec §8.3). -/
def entryCat : POEntry :=
  ⟨("a caterpillar is here").toList, ("某個翻譯").toList, 1, false⟩


lemma escMap_append (f : Char → Str) (a b : Str) :
    escMap f (a ++ b) = escMap f a ++ escMap f b := by
  induction a with
  | nil => rfl
  | cons c cs ih => simp [escMap, ih]

lemma escMap_escMap (f g : Char → Str) (s : Str) :
    escMap g (escMap f s) = escMap (fun c => escMap g (f c)) s := by
  induction s with
  | nil => rfl
  | cons c cs ih => simp [escMap, escMap_append, ih]

lemma escMap_congr (f g : Char → Str) (h : ∀ c, f c = g c) (s : Str) :
    escMap f s = escMap g s := by
  induction s with
  | nil => rfl
  | cons c cs ih => simp [escMap, h c, ih]

lemma replaceGo_single (s : Str) (a : Char) (r : Str) :
    replaceGo [a] r s 0 = escMap (fun c => if c = a then r else [c]) s := by
  induction s with
  | nil => simp [replaceGo, escMap]
  | cons c cs ih =>
    unfold replaceGo
    by_cases h : c = a
    · subst h
      simp [List.isPrefixOf, escMap, ih]
    · have hp : ([a].isPrefixOf (c :: cs)) = false := by
        simp [List.isPrefixOf, beq_iff_eq]
        exact fun hc => h hc.symm
      simp [hp, escMap, ih, h]

lemma escape_eq (text : Str) :
    pyReplace (pyReplace text ['\\'] ['\\', '\\']) ['"'] ['\\', '"'] = escMap escChar text := by
  show replaceGo ['"'] ['\\', '"'] (replaceGo ['\\'] ['\\', '\\'] text 0) 0 = _
  rw [replaceGo_single, replaceGo_single, escMap_escMap]
  apply escMap_congr
  intro c
  by_cases h1 : c = '\\'
  · subst h1; simp [escMap, escChar]
  · by_cases h2 : c = '"'
    · subst h2; simp [escMap, escChar]
    · simp [escMap, escChar, h1, h2]

lemma mem_escMap (f : Char → Str) (c : Char) (s : Str) :
    c ∈ escMap f s → ∃ d ∈ s, c ∈ f d := by
  induction s with
  | nil => simp [escMap]
  | cons x xs ih =>
    simp only [escMap, List.mem_append]
    rintro (h | h)
    · exact ⟨x, by simp, h⟩
    · obtain ⟨d, hd, hc⟩ := ih h
      exact ⟨d, by simp [hd], hc⟩

lemma nl_not_in_escape (s : Str) (h : '\n' ∉ s) : '\n' ∉ escMap escChar s := by
  intro hmem
  obtain ⟨d, hd, hc⟩ := mem_escMap escChar '\n' s hmem
  by_cases h1 : d = '\\'
  · subst h1; simp [escChar] at hc
  · by_cases h2 : d = '"'
    · subst h2; simp [escChar] at hc
    · simp [escChar, h1, h2] at hc
      exact h (hc ▸ hd)

lemma pySplit_ne_nil (sep : Char) (s : Str) : pySplit sep s ≠ [] := by
  cases s with
  | nil => simp [pySplit]
  | cons c cs =>
    unfold pySplit
    cases h : pySplit sep cs with
    | nil => simp
    | cons r rs =>
      by_cases hc : c = sep <;> simp [hc]

lemma pySplit_sep_cons (sep : Char) (z : Str) :
    pySplit sep (sep :: z) = [] :: pySplit sep z := by
  cases h : pySplit sep z with
  | nil => exact absurd h (pySplit_ne_nil sep z)
  | cons r rs => simp [pySplit, h]

lemma pySplit_other_cons (sep c : Char) (z : Str) (hc : c ≠ sep) (r : Str) (rs : List Str)
    (h : pySplit sep z = r :: rs) : pySplit sep (c :: z) = (c :: r) :: rs := by
  unfold pySplit
  rw [h]
  simp [hc]

lemma pySplit_append_no_sep (sep : Char) (xs ys : Str) (hx : sep ∉ xs)
    (r : Str) (rs : List Str) (h : pySplit sep ys = r :: rs) :
    pySplit sep (xs ++ ys) = (xs ++ r) :: rs := by
  induction xs with
  | nil => simpa using h
  | cons x xs ih =>
    have hx1 : x ≠ sep := fun he => hx (by simp [he])
    have hx2 : sep ∉ xs := fun he => hx (by simp [he])
    have := ih hx2
    rw [List.cons_append, pySplit_other_cons sep x (xs ++ ys) hx1 (xs ++ r) rs this]
    simp

lemma pySplit_no_sep (sep : Char) (s : Str) (h : sep ∉ s) : pySplit sep s = [s] := by
  have := pySplit_append_no_sep sep s [] h [] [] (by simp [pySplit])
  simpa using this

lemma joinSep_cons_head (sep x r : Str) (rs : List Str) :
    joinSep sep ((x ++ r) :: rs) = x ++ joinSep sep (r :: rs) := by
  cases rs with
  | nil => simp [joinSep]
  | cons r2 rs2 => simp [joinSep]

lemma join_pySplit (sep : Char) (s : Str) : joinSep [sep] (pySplit sep s) = s := by
  induction s with
  | nil => simp [pySplit, joinSep]
  | cons c cs ih =>
    cases h : pySplit sep cs with
    | nil => exact absurd h (pySplit_ne_nil sep cs)
    | cons r rs =>
      by_cases hc : c = sep
      · subst hc
        rw [pySplit_sep_cons, h]
        have h2 : joinSep [c] ([] :: r :: rs) = [c] ++ joinSep [c] (r :: rs) := by
          simp [joinSep]
        rw [h2, ← h, ih]
        simp
      · rw [pySplit_other_cons sep c cs hc r rs h]
        have h2 : joinSep [sep] ((c :: r) :: rs) = [c] ++ joinSep [sep] (r :: rs) := by
          have h3 := joinSep_cons_head [sep] [c] r rs
          simpa using h3
        rw [h2, ← h, ih]
        simp

lemma mem_pySplit_no_sep (sep : Char) (s : Str) (l : Str) (hl : l ∈ pySplit sep s) :
    sep ∉ l := by
  induction s generalizing l with
  | nil =>
    simp [pySplit] at hl
    simp [hl]
  | cons c cs ih =>
    cases h : pySplit sep cs with
    | nil => exact absurd h (pySplit_ne_nil sep cs)
    | cons r rs =>
      have hr : r ∈ pySplit sep cs := by rw [h]; exact List.mem_cons_self r rs
      by_cases hc : c = sep
      · subst hc
        rw [pySplit_sep_cons, h] at hl
        rcases List.mem_cons.mp hl with hl | hl
        · simp [hl]
        · rcases List.mem_cons.mp hl with hl | hl
          · exact hl ▸ ih r hr
          · exact ih l (by rw [h]; exact List.mem_cons_of_mem r hl)
      · rw [pySplit_other_cons sep c cs hc r rs h] at hl
        rcases List.mem_cons.mp hl with hl | hl
        · subst hl
          intro hmem
          rcases List.mem_cons.mp hmem with hmem | hmem
          · exact hc hmem.symm
          · exact ih r hr hmem
        · exact ih l (by rw [h]; exact List.mem_cons_of_mem r hl)

lemma pySplit_len_ge_two (sep : Char) (s : Str) (h : sep ∈ s) :
    2 ≤ (pySplit sep s).length := by
  induction s with
  | nil => simp at h
  | cons c cs ih =>
    by_cases hc : c = sep
    · subst hc
      rw [pySplit_sep_cons]
      cases hx : pySplit c cs with
      | nil => exact absurd hx (pySplit_ne_nil c cs)
      | cons r rs => simp
    · have hmem : sep ∈ cs := by
        rcases List.mem_cons.mp h with h1 | h1
        · exact absurd h1.symm hc
        · exact h1
      cases hx : pySplit sep cs with
      | nil => exact absurd hx (pySplit_ne_nil sep cs)
      | cons r rs =>
        rw [pySplit_other_cons sep c cs hc r rs hx]
        have h2 := ih hmem
        rw [hx] at h2
        simp only [List.length_cons] at h2 ⊢
        omega

lemma dropWhile_append_all (p : Char → Bool) (xs ys : Str) (h : ∀ c ∈ xs, p c = true) :
    (xs ++ ys).dropWhile p = ys.dropWhile p := by
  induction xs with
  | nil => rfl
  | cons x xs ih =>
    simp only [List.cons_append, List.dropWhile_cons]
    rw [h x (by simp)]
    exact ih (fun c hc => h c (by simp [hc]))

lemma quotedContent_eq (d frag : Str) (hq : ∀ c ∈ d, c ≠ '"') :
    quotedContent (d ++ '"' :: (frag ++ ['"'])) = frag := by
  unfold quotedContent
  have hd : ((d ++ '"' :: (frag ++ ['"'])).dropWhile (fun c => c != '"'))
      = '"' :: (frag ++ ['"']) := by
    rw [dropWhile_append_all _ d _ (by intro c hc; simpa using hq c hc)]
    simp [List.dropWhile_cons]
  rw [hd]
  simp [List.dropWhile_cons]

lemma unescapePo_bs_bs (z : Str) : unescapePo ('\\' :: '\\' :: z) = '\\' :: unescapePo z := rfl

lemma unescapePo_bs_quote (z : Str) : unescapePo ('\\' :: '"' :: z) = '"' :: unescapePo z := rfl

lemma unescapePo_bs_n (z : Str) : unescapePo ('\\' :: 'n' :: z) = '\n' :: unescapePo z := rfl

lemma unescapePo_other (c : Char) (z : Str) (h : ¬ c = '\\') :
    unescapePo (c :: z) = c :: unescapePo z := by
  conv_lhs => rw [unescapePo.eq_def]
  simp [h]

lemma unescapePo_escMap (s t : Str) :
    unescapePo (escMap escChar s ++ t) = s ++ unescapePo t := by
  induction s with
  | nil => rfl
  | cons c cs ih =>
    by_cases h1 : c = '\\'
    · subst h1
      show unescapePo (('\\' :: '\\' :: escMap escChar cs) ++ t) = _
      simp only [List.cons_append]
      rw [unescapePo_bs_bs]
      simp [ih]
    · by_cases h2 : c = '"'
      · subst h2
        show unescapePo (('\\' :: '"' :: escMap escChar cs) ++ t) = _
        simp only [List.cons_append]
        rw [unescapePo_bs_quote]
        simp [ih]
      · have he : escMap escChar (c :: cs) = c :: escMap escChar cs := by
          simp [escMap, escChar, h1, h2]
        rw [he]
        simp only [List.cons_append]
        rw [unescapePo_other c _ h1]
        simp [ih]

lemma unescapePo_escMap_nil (s : Str) : unescapePo (escMap escChar s) = s := by
  have h := unescapePo_escMap s []
  have h0 : unescapePo ([] : Str) = [] := rfl
  rw [h0, List.append_nil, List.append_nil] at h
  exact h

lemma getLastD_map (f : Str → Str) (x : Str) (l : List Str) (d e : Str) :
    ((x :: l).map f).getLastD d = f ((x :: l).getLastD e) := by
  induction l generalizing x d e with
  | nil => simp [List.getLastD]
  | cons y rest ih =>
    have h := ih y (f x) x
    simp only [List.map_cons, List.getLastD_cons] at h ⊢
    exact h

lemma dropLast_map (f : Str → Str) (l : List Str) :
    (l.map f).dropLast = l.dropLast.map f := by
  induction l with
  | nil => rfl
  | cons x rest ih =>
    cases rest with
    | nil => rfl
    | cons y rest2 =>
      simp only [List.map_cons, List.dropLast_cons₂]
      rw [← List.map_cons f y rest2, ih]

lemma pySplit_escMap (sep : Char) (f : Char → Str) (hsep : f sep = [sep])
    (hno : ∀ c, c ≠ sep → sep ∉ f c) (s : Str) :
    pySplit sep (escMap f s) = (pySplit sep s).map (escMap f) := by
  induction s with
  | nil => simp [escMap, pySplit]
  | cons c cs ih =>
    by_cases hc : c = sep
    · have h1 : escMap f (c :: cs) = sep :: escMap f cs := by
        simp [escMap, hc, hsep]
      rw [h1, pySplit_sep_cons, hc, pySplit_sep_cons]
      simp [escMap, ih]
    · cases hx : pySplit sep cs with
      | nil => exact absurd hx (pySplit_ne_nil sep cs)
      | cons r rs =>
        have hih := ih
        rw [hx] at hih
        simp only [List.map_cons] at hih
        have h1 : escMap f (c :: cs) = f c ++ escMap f cs := rfl
        rw [h1, pySplit_append_no_sep sep (f c) (escMap f cs) (hno c hc)
              (escMap f r) (rs.map (escMap f)) hih,
            pySplit_other_cons sep c cs hc r rs hx]
        simp [escMap]

lemma pySplit_joinSep (sep : Char) (ls : List Str) (hne : ls ≠ [])
    (h : ∀ l ∈ ls, sep ∉ l) : pySplit sep (joinSep [sep] ls) = ls := by
  induction ls with
  | nil => exact absurd rfl hne
  | cons l ls2 ih =>
    cases ls2 with
    | nil => simp [joinSep, pySplit_no_sep sep l (h l (by simp))]
    | cons l2 rest =>
      have hj : joinSep [sep] (l :: l2 :: rest) = l ++ (sep :: joinSep [sep] (l2 :: rest)) := by
        simp [joinSep]
      rw [hj]
      have htail : pySplit sep (joinSep [sep] (l2 :: rest)) = l2 :: rest :=
        ih (by simp) (fun x hx => h x (by simp [hx]))
      have hmid : pySplit sep (sep :: joinSep [sep] (l2 :: rest)) = [] :: l2 :: rest := by
        rw [pySplit_sep_cons, htail]
      rw [pySplit_append_no_sep sep l _ (h l (by simp)) [] (l2 :: rest) hmid]
      simp

lemma concat_nl (segs : List Str) (hne : segs ≠ []) :
    concatAll (segs.dropLast.map (fun x => x ++ ['\n']) ++ [segs.getLastD []])
      = joinSep ['\n'] segs := by
  induction segs with
  | nil => exact absurd rfl hne
  | cons s rest ih =>
    cases rest with
    | nil => simp [concatAll, joinSep, List.getLastD]
    | cons r rest2 =>
      have h1 : (s :: r :: rest2).dropLast = s :: (r :: rest2).dropLast := by simp
      have h2 : (s :: r :: rest2).getLastD [] = (r :: rest2).getLastD [] := by
        simp [List.getLastD_cons]
      rw [h1, h2]
      have hstep : (s :: (r :: rest2).dropLast).map (fun x => x ++ ['\n'])
            ++ [(r :: rest2).getLastD []]
          = (s ++ ['\n']) :: ((r :: rest2).dropLast.map (fun x => x ++ ['\n'])
            ++ [(r :: rest2).getLastD []]) := by
        simp
      rw [hstep]
      have hconcat : concatAll ((s ++ ['\n'])
            :: ((r :: rest2).dropLast.map (fun x => x ++ ['\n']) ++ [(r :: rest2).getLastD []]))
          = (s ++ ['\n'])
            ++ concatAll ((r :: rest2).dropLast.map (fun x => x ++ ['\n'])
              ++ [(r :: rest2).getLastD []]) := rfl
      rw [hconcat, ih (by simp)]
      have h3 : joinSep ['\n'] (s :: r :: rest2) = s ++ '\n' :: joinSep ['\n'] (r :: rest2) := by
        simp [joinSep]
      rw [h3]
      simp

lemma escChar_no_nl : ∀ c, c ≠ '\n' → '\n' ∉ escChar c := by
  intro c hc
  by_cases h1 : c = '\\'
  · subst h1
    simp [escChar]
  · by_cases h2 : c = '"'
    · subst h2
      simp [escChar]
    · simp [escChar, h1, h2]
      exact fun he => hc he.symm

lemma take_append_front (Y Z : Str) : (Y ++ Z).take Y.length = Y := by
  induction Y with
  | nil => simp
  | cons y ys ih => simp [ih]

lemma take_front3 (Y : Str) (a b c : Char) :
    (Y ++ [a, b, c]).take ((Y ++ [a, b, c]).length - 3) = Y := by
  have hl : (Y ++ [a, b, c]).length - 3 = Y.length := by
    simp
  rw [hl]
  exact take_append_front Y [a, b, c]

lemma getLastD_mem (x : Str) (l : List Str) (d : Str) : (x :: l).getLastD d ∈ x :: l := by
  induction l generalizing x with
  | nil => simp [List.getLastD]
  | cons y rest ih =>
    rw [List.getLastD_cons]
    exact List.mem_cons_of_mem x (ih y)

lemma format_single (text lw : Str) (hnlt : '\n' ∉ text) :
    format_msgstr_for_suggestion text lw
      = lw ++ ("msgstr \"").toList ++ escMap escChar text ++ ['"'] := by
  simp only [format_msgstr_for_suggestion]
  rw [escape_eq, pySplit_no_sep '\n' (escMap escChar text) (nl_not_in_escape text hnlt)]
  simp

lemma format_multi (text lw : Str) (hnlt : '\n' ∈ text) :
    format_msgstr_for_suggestion text lw
      = joinSep ['\n'] ((lw ++ ("msgstr \"\"").toList)
          :: (pySplit '\n' text).dropLast.map
               (fun seg => lw ++ ['"'] ++ escMap escChar seg ++ ['\\', 'n', '"'])
          ++ [lw ++ ['"'] ++ escMap escChar ((pySplit '\n' text).getLastD []) ++ ['"']]) := by
  have hmap := pySplit_escMap '\n' escChar rfl escChar_no_nl text
  have hlen2 := pySplit_len_ge_two '\n' text hnlt
  simp only [format_msgstr_for_suggestion]
  rw [escape_eq, hmap]
  have hlen : ¬ ((pySplit '\n' text).map (escMap escChar)).length = 1 := by
    rw [List.length_map]
    omega
  rw [if_neg hlen]
  cases hsegs : pySplit '\n' text with
  | nil => exact absurd hsegs (pySplit_ne_nil '\n' text)
  | cons s0 rest =>
    cases rest with
    | nil =>
      rw [hsegs] at hlen2
      simp at hlen2
    | cons s1 rest2 =>
      simp only [List.map_cons]
      have hF : ((fun line => lw ++ ['"'] ++ line ++ ['\\', 'n', '"']) ∘ escMap escChar)
          = fun seg => lw ++ ['"'] ++ escMap escChar seg ++ ['\\', 'n', '"'] := by
        funext seg
        simp
      have hlast : ((lw ++ ("msgstr \"\"").toList)
            :: (lw ++ ['"'] ++ escMap escChar s0 ++ ['\\', 'n', '"'])
            :: (lw ++ ['"'] ++ escMap escChar s1 ++ ['\\', 'n', '"'])
            :: (rest2.map (escMap escChar)).map
                 (fun line => lw ++ ['"'] ++ line ++ ['\\', 'n', '"'])).getLastD []
          = lw ++ ['"'] ++ escMap escChar ((s0 :: s1 :: rest2).getLastD []) ++ ['\\', 'n', '"'] := by
        rw [List.getLastD_cons]
        have hm : (lw ++ ['"'] ++ escMap escChar s0 ++ ['\\', 'n', '"'])
              :: (lw ++ ['"'] ++ escMap escChar s1 ++ ['\\', 'n', '"'])
              :: (rest2.map (escMap escChar)).map
                   (fun line => lw ++ ['"'] ++ line ++ ['\\', 'n', '"'])
            = (s0 :: s1 :: rest2).map
                (fun seg => lw ++ ['"'] ++ escMap escChar seg ++ ['\\', 'n', '"']) := by
          simp [List.map_map, hF]
        rw [hm]
        exact getLastD_map (fun seg => lw ++ ['"'] ++ escMap escChar seg ++ ['\\', 'n', '"'])
          s0 (s1 :: rest2) (lw ++ ("msgstr \"\"").toList) []
      rw [hlast, take_front3]
      have hdrop : ((lw ++ ("msgstr \"\"").toList)
            :: (lw ++ ['"'] ++ escMap escChar s0 ++ ['\\', 'n', '"'])
            :: (lw ++ ['"'] ++ escMap escChar s1 ++ ['\\', 'n', '"'])
            :: (rest2.map (escMap escChar)).map
                 (fun line => lw ++ ['"'] ++ line ++ ['\\', 'n', '"'])).dropLast
          = (lw ++ ("msgstr \"\"").toList)
            :: ((s0 :: s1 :: rest2).dropLast.map
                 (fun seg => lw ++ ['"'] ++ escMap escChar seg ++ ['\\', 'n', '"'])) := by
        have hm : (lw ++ ['"'] ++ escMap escChar s0 ++ ['\\', 'n', '"'])
              :: (lw ++ ['"'] ++ escMap escChar s1 ++ ['\\', 'n', '"'])
              :: (rest2.map (escMap escChar)).map
                   (fun line => lw ++ ['"'] ++ line ++ ['\\', 'n', '"'])
            = (s0 :: s1 :: rest2).map
                (fun seg => lw ++ ['"'] ++ escMap escChar seg ++ ['\\', 'n', '"']) := by
          simp [List.map_map, hF]
        rw [List.dropLast_cons₂, hm]
        have hne : (s0 :: s1 :: rest2).map
            (fun seg => lw ++ ['"'] ++ escMap escChar seg ++ ['\\', 'n', '"']) ≠ [] := by
          simp
        rw [dropLast_map]
      rw [hdrop]

lemma mem_of_mem_dropLast (x : Str) (l : List Str) (h : x ∈ l.dropLast) : x ∈ l := by
  induction l with
  | nil => simp at h
  | cons a rest ih =>
    cases rest with
    | nil => simp at h
    | cons b rest2 =>
      rw [List.dropLast_cons₂] at h
      rcases List.mem_cons.mp h with h | h
      · simp [h]
      · exact List.mem_cons_of_mem a (ih h)

lemma roundtrip_format (text lw : Str) (hlw : ∀ c ∈ lw, c.isWhitespace = true)
    (hnl : '\n' ∉ lw) :
    parse_msgstr_block (format_msgstr_for_suggestion text lw) = text := by
  have hq : ∀ c ∈ lw, c ≠ '"' := by
    intro c hc he
    have hw := hlw c hc
    rw [he] at hw
    exact absurd hw (by decide)
  have hq2 : ∀ c ∈ lw ++ ("msgstr ").toList, c ≠ '"' := by
    intro c hc
    rcases List.mem_append.mp hc with h | h
    · exact hq c h
    · intro he
      rw [he] at h
      exact absurd h (by decide)
  have hmid : ∀ seg : Str,
      unescapePo (quotedContent (lw ++ ['"'] ++ escMap escChar seg ++ ['\\', 'n', '"']))
        = seg ++ ['\n'] := by
    intro seg
    have h1 : lw ++ ['"'] ++ escMap escChar seg ++ ['\\', 'n', '"']
        = lw ++ '"' :: ((escMap escChar seg ++ ['\\', 'n']) ++ ['"']) := by
      simp
    rw [h1, quotedContent_eq lw _ hq, unescapePo_escMap]
    rfl
  have hlastline : ∀ X : Str,
      unescapePo (quotedContent (lw ++ ['"'] ++ escMap escChar X ++ ['"'])) = X := by
    intro X
    have h1 : lw ++ ['"'] ++ escMap escChar X ++ ['"']
        = lw ++ '"' :: (escMap escChar X ++ ['"']) := by
      simp
    rw [h1, quotedContent_eq lw _ hq, unescapePo_escMap_nil]
  have hopen : unescapePo (quotedContent (lw ++ ("msgstr \"\"").toList)) = [] := by
    have h1 : lw ++ ("msgstr \"\"").toList
        = (lw ++ ("msgstr ").toList) ++ '"' :: (([] : Str) ++ ['"']) := by
      have h2 : ("msgstr \"\"").toList = ("msgstr ").toList ++ ['"', '"'] := by decide
      rw [h2]
      simp
    rw [h1, quotedContent_eq _ _ hq2]
    rfl
  by_cases hnlt : '\n' ∈ text
  · rw [format_multi text lw hnlt]
    have hne : pySplit '\n' text ≠ [] := pySplit_ne_nil '\n' text
    have hmemL : ∀ l ∈ ((lw ++ ("msgstr \"\"").toList)
          :: (pySplit '\n' text).dropLast.map
               (fun seg => lw ++ ['"'] ++ escMap escChar seg ++ ['\\', 'n', '"'])
          ++ [lw ++ ['"'] ++ escMap escChar ((pySplit '\n' text).getLastD []) ++ ['"']]),
        '\n' ∉ l := by
      intro l hl
      rcases List.mem_cons.mp hl with hl | hl
      · subst hl
        intro h
        rcases List.mem_append.mp h with h | h
        · exact hnl h
        · exact absurd h (by decide)
      · rcases List.mem_append.mp hl with hl | hl
        · rcases List.mem_map.mp hl with ⟨seg, hseg, heq⟩
          subst heq
          intro h
          simp only [List.mem_append] at h
          rcases h with ((h | h) | h) | h
          · exact hnl h
          · exact absurd h (by decide)
          · have hsegmem : seg ∈ pySplit '\n' text :=
              mem_of_mem_dropLast seg _ hseg
            exact nl_not_in_escape seg (mem_pySplit_no_sep '\n' text seg hsegmem) h
          · exact absurd h (by decide)
        · have hl2 : l = lw ++ ['"']
              ++ escMap escChar ((pySplit '\n' text).getLastD []) ++ ['"'] := by
            simpa using hl
          subst hl2
          intro h
          simp only [List.mem_append] at h
          rcases h with ((h | h) | h) | h
          · exact hnl h
          · exact absurd h (by decide)
          · cases hx : pySplit '\n' text with
            | nil => exact absurd hx hne
            | cons a as =>
              rw [hx] at h
              have hmem2 := getLastD_mem a as []
              exact nl_not_in_escape _
                (mem_pySplit_no_sep '\n' text _ (hx ▸ hmem2)) h
          · exact absurd h (by decide)
    unfold parse_msgstr_block
    rw [pySplit_joinSep '\n' _ (by simp) hmemL]
    have hcomp : ((fun l => unescapePo (quotedContent l))
          ∘ fun seg => lw ++ ['"'] ++ escMap escChar seg ++ ['\\', 'n', '"'])
        = fun x => x ++ ['\n'] := by
      funext seg
      simp only [Function.comp_apply]
      exact hmid seg
    have hmaps : List.map (fun l => unescapePo (quotedContent l))
          ((lw ++ ("msgstr \"\"").toList)
            :: (pySplit '\n' text).dropLast.map
                 (fun seg => lw ++ ['"'] ++ escMap escChar seg ++ ['\\', 'n', '"'])
            ++ [lw ++ ['"'] ++ escMap escChar ((pySplit '\n' text).getLastD []) ++ ['"']])
        = [] :: ((pySplit '\n' text).dropLast.map (fun x => x ++ ['\n'])
            ++ [(pySplit '\n' text).getLastD []]) := by
      simp only [List.map_cons, List.map_append, List.map_nil, List.map_map]
      rw [hopen, hlastline, hcomp]
      rfl
    rw [hmaps]
    have hcc : concatAll (([] : Str) :: ((pySplit '\n' text).dropLast.map (fun x => x ++ ['\n'])
          ++ [(pySplit '\n' text).getLastD []]))
        = concatAll ((pySplit '\n' text).dropLast.map (fun x => x ++ ['\n'])
          ++ [(pySplit '\n' text).getLastD []]) := rfl
    rw [hcc, concat_nl _ hne, join_pySplit]
  · rw [format_single text lw hnlt]
    have hnb : '\n' ∉ lw ++ ("msgstr \"").toList ++ escMap escChar text ++ ['"'] := by
      intro h
      simp only [List.mem_append] at h
      rcases h with ((h | h) | h) | h
      · exact hnl h
      · exact absurd h (by decide)
      · exact nl_not_in_escape text hnlt h
      · exact absurd h (by decide)
    unfold parse_msgstr_block
    rw [pySplit_no_sep '\n' _ hnb]
    simp only [List.map_cons, List.map_nil, concatAll, List.append_nil]
    have hblock : lw ++ ("msgstr \"").toList ++ escMap escChar text ++ ['"']
        = (lw ++ ("msgstr ").toList) ++ '"' :: (escMap escChar text ++ ['"']) := by
      have h1 : ("msgstr \"").toList = ("msgstr ").toList ++ ['"'] := by decide
      rw [h1]
      simp
    rw [hblock, quotedContent_eq _ _ hq2, unescapePo_escMap_nil]

lemma getD_drop (lines : List Str) (d j : Nat) :
    (lines.drop d).getD j [] = lines.getD (d + j) [] := by
  induction d generalizing lines with
  | zero => simp
  | succ d ih =>
    cases lines with
    | nil => simp [List.getD]
    | cons x xs =>
      simp only [List.drop_succ_cons]
      rw [ih xs]
      have harith : d + 1 + j = (d + j) + 1 := by omega
      rw [harith, List.getD_cons_succ]

lemma findMsgstrIdx_none_spec (ls : List Str) (i : Nat) (h : findMsgstrIdx ls i = none) :
    ∀ j, j < ls.length → isMsgstrLine (ls.getD j []) = false := by
  induction ls generalizing i with
  | nil =>
    intro j hj
    simp at hj
  | cons l rest ih =>
    cases hm : isMsgstrLine l with
    | true => simp [findMsgstrIdx, hm] at h
    | false =>
      simp only [findMsgstrIdx, hm, Bool.false_eq_true, if_false] at h
      intro j hj
      cases j with
      | zero => simpa using hm
      | succ j2 =>
        rw [List.getD_cons_succ]
        exact ih (i + 1) h j2 (by simpa using hj)

lemma findMsgstrIdx_some_spec (ls : List Str) (i r : Nat) (h : findMsgstrIdx ls i = some r) :
    i ≤ r ∧ r - i < ls.length ∧ isMsgstrLine (ls.getD (r - i) []) = true ∧
      ∀ j, i ≤ j → j < r → isMsgstrLine (ls.getD (j - i) []) = false := by
  induction ls generalizing i with
  | nil => simp [findMsgstrIdx] at h
  | cons l rest ih =>
    cases hm : isMsgstrLine l with
    | true =>
      simp only [findMsgstrIdx, hm, if_true] at h
      have hr : i = r := by simpa using h
      subst hr
      refine ⟨Nat.le_refl i, by simp, by simpa using hm, ?_⟩
      intro j hj1 hj2
      omega
    | false =>
      simp only [findMsgstrIdx, hm, Bool.false_eq_true, if_false] at h
      obtain ⟨h1, h2, h3, h4⟩ := ih (i + 1) h
      refine ⟨by omega, by simp only [List.length_cons]; omega, ?_, ?_⟩
      · have harith : r - i = (r - (i + 1)) + 1 := by omega
        rw [harith, List.getD_cons_succ]
        exact h3
      · intro j hj1 hj2
        by_cases hji : j = i
        · subst hji
          have harith : j - j = 0 := by omega
          rw [harith]
          simpa using hm
        · have harith : j - i = (j - (i + 1)) + 1 := by omega
          rw [harith, List.getD_cons_succ]
          exact h4 j (by omega) hj2

lemma takeWhile_length_le (p : Str → Bool) (l : List Str) :
    (l.takeWhile p).length ≤ l.length := by
  induction l with
  | nil => simp
  | cons a rest ih =>
    cases hp : p a with
    | false => simp [List.takeWhile_cons, hp]
    | true =>
      simp only [List.takeWhile_cons, hp, if_true, List.length_cons]
      omega

lemma takeWhile_getD_true (p : Str → Bool) (l : List Str) (j : Nat)
    (h : j < (l.takeWhile p).length) : p (l.getD j []) = true := by
  induction l generalizing j with
  | nil => simp [List.takeWhile] at h
  | cons a rest ih =>
    cases hp : p a with
    | false => simp [List.takeWhile_cons, hp] at h
    | true =>
      cases j with
      | zero => simpa using hp
      | succ j2 =>
        rw [List.getD_cons_succ]
        apply ih
        have ht : (a :: rest).takeWhile p = a :: rest.takeWhile p := by
          simp [List.takeWhile_cons, hp]
        rw [ht] at h
        simpa using h

lemma takeWhile_stop (p : Str → Bool) (l : List Str)
    (h : (l.takeWhile p).length < l.length) :
    p (l.getD (l.takeWhile p).length []) = false := by
  induction l with
  | nil => simp at h
  | cons a rest ih =>
    cases hp : p a with
    | false =>
      have ht : (a :: rest).takeWhile p = [] := by simp [List.takeWhile_cons, hp]
      rw [ht]
      simpa using hp
    | true =>
      have ht : (a :: rest).takeWhile p = a :: rest.takeWhile p := by
        simp [List.takeWhile_cons, hp]
      rw [ht] at h ⊢
      simp only [List.length_cons, List.getD_cons_succ]
      exact ih (by simp only [List.length_cons] at h; omega)

lemma extendEnd_eq (ls : List Str) (i e : Nat) :
    extendEnd ls i e = if (ls.takeWhile isContinuationLine).length = 0 then e
      else i + (ls.takeWhile isContinuationLine).length := by
  induction ls generalizing i e with
  | nil => simp [extendEnd, List.takeWhile]
  | cons l rest ih =>
    cases hc : isContinuationLine l with
    | true =>
      simp only [extendEnd, hc, if_true]
      rw [ih]
      have ht : (l :: rest).takeWhile isContinuationLine
          = l :: rest.takeWhile isContinuationLine := by
        simp [List.takeWhile_cons, hc]
      rw [ht, List.length_cons]
      by_cases h0 : (rest.takeWhile isContinuationLine).length = 0
      · simp [h0]
      · simp only [h0, if_false, Nat.succ_ne_zero]
        omega
    | false =>
      have ht : (l :: rest).takeWhile isContinuationLine = [] := by
        simp [List.takeWhile_cons, hc]
      simp [extendEnd, hc, ht]

lemma strategy2_rangeNone (p : Str) (ex : List (Str × Nat)) (lines : List Str)
    (e : POEntry) (gl : List GlossaryTerm) (h : findRangeCore lines e.linenum = none) :
    strategy2 p ex lines e gl = [] := by
  induction gl with
  | nil => rfl
  | cons t ts ih =>
    simp only [strategy2, h]
    split
    · split
      · split
        · exact ih
        · exact ih
      · exact ih
    · exact ih

lemma check_entry_rangeNone (p : Str) (gmap : Str → Option GlossaryTerm)
    (gl : List GlossaryTerm) (ex : List (Str × Nat)) (lines : List Str) (e : POEntry)
    (h : findRangeCore lines e.linenum = none) :
    check_entry p gmap gl ex lines e = [] := by
  unfold check_entry
  split
  · rfl
  · split
    · split
      · simp only [h]
      · exact strategy2_rangeNone p ex lines e gl h
    · exact strategy2_rangeNone p ex lines e gl h

lemma strategy2_of_mem (p : Str) (ex : List (Str × Nat)) (lines : List Str)
    (e : POEntry) (gl : List GlossaryTerm) (s en : Nat)
    (h : findRangeCore lines e.linenum = some (s, en)) (hmem : (p, en) ∈ ex) :
    strategy2 p ex lines e gl = [] := by
  induction gl with
  | nil => rfl
  | cons t ts ih =>
    simp only [strategy2, h]
    split
    · split
      · split
        · exact ih
        · exact ih
      · exact ih
    · exact ih

lemma strategy2_ex_irrelevant (p : Str) (ex : List (Str × Nat)) (lines : List Str)
    (e : POEntry) (gl : List GlossaryTerm) (s en : Nat)
    (h : findRangeCore lines e.linenum = some (s, en)) (hmem : (p, en) ∉ ex) :
    strategy2 p ex lines e gl = strategy2 p [] lines e gl := by
  induction gl with
  | nil => rfl
  | cons t ts ih =>
    simp only [strategy2, h]
    split
    · split
      · split
        · rw [if_neg (show (p, en) ∉ ([] : List (Str × Nat)) by simp)]
        · exact ih
      · exact ih
    · exact ih


/-- C4: Given the file's physical lines and an entry's 1-based startLine,
`find_msgstr_line_range` returns as rangeStart the first line at or after
startLine whose trimmed content begins with `msgstr`, then extends rangeEnd
over every immediately following line whose trimmed content both starts and
ends with a quote character, stopping at the first line without this shape;
if no `msgstr` line exists from startLine to end of file it returns
`(-1, -1)` and the caller (`check_entry`) skips the entry without failing. -/
theorem find_msgstr_line_range_spec (lines : List Str) (n : Nat) (hn : 1 ≤ n) :
    ((∀ k, n ≤ k → k ≤ lines.length → isMsgstrLine (lines.getD (k - 1) []) = false) →
      find_msgstr_line_range lines n = (-1, -1) ∧
      (∀ p gmap glist ex (e : POEntry), e.linenum = n →
        check_entry p gmap glist ex lines e = [])) ∧
    (∀ s en : Nat, find_msgstr_line_range lines n = ((s : Int), (en : Int)) →
      n ≤ s ∧ s ≤ lines.length ∧ isMsgstrLine (lines.getD (s - 1) []) = true ∧
      (∀ k, n ≤ k → k < s → isMsgstrLine (lines.getD (k - 1) []) = false) ∧
      s ≤ en ∧ en ≤ lines.length ∧
      (∀ k, s < k → k ≤ en → isContinuationLine (lines.getD (k - 1) []) = true) ∧
      (en < lines.length → isContinuationLine (lines.getD en []) = false)) := by
  have hdroplen : (lines.drop (n - 1)).length = lines.length - (n - 1) := by simp
  constructor
  · intro hnone
    have hfind : findMsgstrIdx (lines.drop (n - 1)) (n - 1) = none := by
      cases hf : findMsgstrIdx (lines.drop (n - 1)) (n - 1) with
      | none => rfl
      | some r =>
        obtain ⟨h1, h2, h3, h4⟩ := findMsgstrIdx_some_spec _ _ _ hf
        rw [getD_drop] at h3
        rw [hdroplen] at h2
        have hr : (n - 1) + (r - (n - 1)) = r := by omega
        rw [hr] at h3
        have hbad := hnone (r + 1) (by omega) (by omega)
        rw [Nat.add_sub_cancel] at hbad
        rw [h3] at hbad
        exact absurd hbad (by decide)
    have hcore : findRangeCore lines n = none := by
      unfold findRangeCore
      rw [hfind]
    constructor
    · unfold find_msgstr_line_range
      rw [hcore]
    · intro p gmap glist ex e he
      exact check_entry_rangeNone p gmap glist ex lines e (by rw [he]; exact hcore)
  · intro s en hs
    unfold find_msgstr_line_range at hs
    cases hf : findRangeCore lines n with
    | none =>
      rw [hf] at hs
      simp only [Prod.mk.injEq] at hs
      omega
    | some pr =>
      obtain ⟨s0, e0⟩ := pr
      rw [hf] at hs
      simp only [Prod.mk.injEq] at hs
      obtain ⟨hs1, hs2⟩ := hs
      have hs0 : s0 = s := by exact_mod_cast hs1
      have he0 : e0 = en := by exact_mod_cast hs2
      subst hs0
      subst he0
      unfold findRangeCore at hf
      cases hidx : findMsgstrIdx (lines.drop (n - 1)) (n - 1) with
      | none =>
        rw [hidx] at hf
        simp at hf
      | some i =>
        rw [hidx] at hf
        simp only [Option.some.injEq, Prod.mk.injEq] at hf
        obtain ⟨hfs, hfe⟩ := hf
        obtain ⟨h1, h2, h3, h4⟩ := findMsgstrIdx_some_spec _ _ _ hidx
        rw [getD_drop] at h3
        rw [hdroplen] at h2
        have hi : (n - 1) + (i - (n - 1)) = i := by omega
        rw [hi] at h3
        have hext := extendEnd_eq (lines.drop (i + 1)) (i + 1) (i + 1)
        have hKle := takeWhile_length_le isContinuationLine (lines.drop (i + 1))
        have hdroplen2 : (lines.drop (i + 1)).length = lines.length - (i + 1) := by simp
        rw [hdroplen2] at hKle
        have hen : e0 = (i + 1) + ((lines.drop (i + 1)).takeWhile isContinuationLine).length := by
          rw [← hfe, hext]
          split
          · omega
          · rfl
        have hilt : i < lines.length := by omega
        refine ⟨by omega, by omega, ?_, ?_, by omega, by omega, ?_, ?_⟩
        · have harith : s0 - 1 = i := by omega
          rw [harith]
          exact h3
        · intro k hk1 hk2
          have h5 := h4 (k - 1) (by omega) (by omega)
          rw [getD_drop] at h5
          have harith : (n - 1) + ((k - 1) - (n - 1)) = k - 1 := by omega
          rw [harith] at h5
          exact h5
        · intro k hk1 hk2
          have hklt : (k - 1) - (i + 1)
              < ((lines.drop (i + 1)).takeWhile isContinuationLine).length := by omega
          have h6 := takeWhile_getD_true isContinuationLine (lines.drop (i + 1)) _ hklt
          rw [getD_drop] at h6
          have harith : (i + 1) + ((k - 1) - (i + 1)) = k - 1 := by omega
          rw [harith] at h6
          exact h6
        · intro hlt
          have hKlt : ((lines.drop (i + 1)).takeWhile isContinuationLine).length
              < (lines.drop (i + 1)).length := by
            rw [hdroplen2]
            omega
          have h7 := takeWhile_stop isContinuationLine (lines.drop (i + 1)) hKlt
          rw [getD_drop] at h7
          have harith : (i + 1) + ((lines.drop (i + 1)).takeWhile isContinuationLine).length
              = e0 := by omega
          rw [harith] at h7
          exact h7

/-- C4 witness: on `linesA` from startLine 1 the resolver returns lines
3-5: line 3 is the first `msgstr` line, lines 4-5 are quoted continuation
fragments, and line 6 is not. -/
theorem find_msgstr_line_range_spec_witness :
    (1 : Nat) ≤ 3 ∧ 3 ≤ linesA.length ∧ isMsgstrLine (linesA.getD (3 - 1) []) = true ∧
    (3 : Nat) ≤ 5 ∧ 5 ≤ linesA.length ∧ isContinuationLine (linesA.getD 5 []) = false := by
  have h := (find_msgstr_line_range_spec linesA 1 (by decide)).2 3 5 (by decide)
  exact ⟨h.1, h.2.1, h.2.2.1, h.2.2.2.2.1, h.2.2.2.2.2.1, h.2.2.2.2.2.2.2 (by decide)⟩

/-- C5: strategy 2 considers a glossary term only when its source occurs in
the entry id as a whole word under case-insensitive matching; in
particular a term whose source `cat` appears only inside `caterpillar`
never fires, whatever its target and known errors. -/
theorem word_boundary_gating :
    (∀ (p : Str) (ex : List (Str × Nat)) (lines : List Str) (e : POEntry)
        (term : GlossaryTerm) (ts : List GlossaryTerm),
      wordBoundarySearch term.source e.msgid = false →
      strategy2 p ex lines e (term :: ts) = strategy2 p ex lines e ts) ∧
    (∀ (tgt : Str) (errs : List Str) (p : Str) (ex : List (Str × Nat))
        (lines : List Str) (e : POEntry),
      e.msgid = ("a caterpillar is here").toList →
      strategy2 p ex lines e [⟨("cat").toList, tgt, errs⟩] = []) := by
  constructor
  · intro p ex lines e term ts h
    simp [strategy2, h]
  · intro tgt errs p ex lines e h
    have hwb : wordBoundarySearch (⟨("cat").toList, tgt, errs⟩ : GlossaryTerm).source e.msgid
        = false := by
      show wordBoundarySearch (("cat").toList) e.msgid = false
      rw [h]
      decide
    simp only [strategy2]
    rw [hwb]
    simp [strategy2]

/-- C5 witness: a term with a word-boundary miss is skipped unchanged, and
the `cat` term never fires on `a caterpillar is here`. -/
theorem word_boundary_gating_witness :
    strategy2 (("f.po").toList) [] linesPR entryCat [termPR, termABC]
      = strategy2 (("f.po").toList) [] linesPR entryCat [termABC] ∧
    strategy2 (("f.po").toList) [] linesPR entryCat
      [⟨("cat").toList, ("貓").toList, [("犬").toList]⟩] = [] :=
  ⟨word_boundary_gating.1 (("f.po").toList) [] linesPR entryCat termPR [termABC] (by decide),
   word_boundary_gating.2 (("貓").toList) [("犬").toList] (("f.po").toList) [] linesPR
     entryCat rfl⟩

/-- C6: with the line range resolved to `(s, en)`, a suggestion candidate
is suppressed exactly when `(path, en)` is in the duplicate set: a member
makes the entry produce nothing, and for a non-member the run is
identical to a run with the empty duplicate set. -/
theorem duplicate_suppression_iff (p : Str) (gmap : Str → Option GlossaryTerm)
    (glist : List GlossaryTerm) (ex : List (Str × Nat)) (lines : List Str)
    (e : POEntry) (s en : Nat)
    (hrange : findRangeCore lines e.linenum = some (s, en)) :
    ((p, en) ∈ ex → check_entry p gmap glist ex lines e = []) ∧
    ((p, en) ∉ ex → check_entry p gmap glist ex lines e
        = check_entry p gmap glist [] lines e) := by
  constructor
  · intro hmem
    unfold check_entry
    split
    · rfl
    · split
      · split
        · simp only [hrange]
          rw [if_pos hmem]
        · exact strategy2_of_mem p ex lines e glist s en hrange hmem
      · exact strategy2_of_mem p ex lines e glist s en hrange hmem
  · intro hmem
    unfold check_entry
    split
    · rfl
    · split
      · split
        · simp only [hrange]
          rw [if_neg hmem, if_neg (show (p, en) ∉ ([] : List (Str × Nat)) by simp)]
        · exact strategy2_ex_irrelevant p ex lines e glist s en hrange hmem
      · exact strategy2_ex_irrelevant p ex lines e glist s en hrange hmem

/-- C6 witness: the known-error entry at endLine 1 is suppressed when
`(f.po, 1)` is already flagged, and with an unrelated pair `(f.po, 7)` the
run equals the run with no duplicate state. -/
theorem duplicate_suppression_iff_witness :
    check_entry (("f.po").toList) gmapPR [] [((("f.po").toList), 1)] linesPR entryPRbad = [] ∧
    check_entry (("f.po").toList) gmapPR [] [((("f.po").toList), 7)] linesPR entryPRbad
      = check_entry (("f.po").toList) gmapPR [] [] linesPR entryPRbad :=
  ⟨(duplicate_suppression_iff (("f.po").toList) gmapPR [] [((("f.po").toList), 1)]
      linesPR entryPRbad 1 1 (by decide)).1 (by decide),
   (duplicate_suppression_iff (("f.po").toList) gmapPR [] [((("f.po").toList), 7)]
      linesPR entryPRbad 1 1 (by decide)).2 (by decide)⟩

/-- C9: for an entry whose id is a glossary key and whose translation
differs from the target, the result never depends on the glossary list
(strategy 2 is not evaluated); when the suggestion is withheld because the
range is unresolved or the pair is already flagged, the entry produces no
suggestion at all. -/
theorem strategy1_short_circuit (p : Str) (gmap : Str → Option GlossaryTerm)
    (glist : List GlossaryTerm) (ex : List (Str × Nat)) (lines : List Str)
    (e : POEntry) (term : GlossaryTerm)
    (hid : e.msgid ≠ []) (hstr : e.msgstr ≠ []) (hobs : e.obsolete = false)
    (hmap : gmap e.msgid = some term) (hne : e.msgstr ≠ term.target) :
    (∀ glist2, check_entry p gmap glist ex lines e
        = check_entry p gmap glist2 ex lines e) ∧
    (findRangeCore lines e.linenum = none → check_entry p gmap glist ex lines e = []) ∧
    (∀ s en, findRangeCore lines e.linenum = some (s, en) → (p, en) ∈ ex →
      check_entry p gmap glist ex lines e = []) := by
  have hcond : ¬ (e.msgid = [] ∨ e.msgstr = [] ∨ e.obsolete = true) := by
    simp [hid, hstr, hobs]
  refine ⟨?_, ?_, ?_⟩
  · intro glist2
    unfold check_entry
    rw [if_neg hcond]
    simp only [hmap]
    rw [if_pos hne]
    rw [if_neg hcond, if_pos hne]
  · intro hnone
    exact check_entry_rangeNone p gmap glist ex lines e hnone
  · intro s en hr hmem
    unfold check_entry
    rw [if_neg hcond]
    simp only [hmap, hr]
    rw [if_pos hne, if_pos hmem]

/-- C9 witness: on the known-error entry, the run does not depend on the
glossary list; with no `msgstr` line, and with the pair already flagged,
the entry yields nothing. -/
theorem strategy1_short_circuit_witness :
    check_entry (("f.po").toList) gmapPR [termPR] [] linesPR entryPRbad
      = check_entry (("f.po").toList) gmapPR [] [] linesPR entryPRbad ∧
    check_entry (("f.po").toList) gmapPR [termPR] [] [("# x").toList] entryPRbad = [] ∧
    check_entry (("f.po").toList) gmapPR [termPR] [((("f.po").toList), 1)] linesPR
      entryPRbad = [] :=
  ⟨(strategy1_short_circuit (("f.po").toList) gmapPR [termPR] [] linesPR entryPRbad termPR
      (by decide) (by decide) rfl (by decide) (by decide)).1 [],
   (strategy1_short_circuit (("f.po").toList) gmapPR [termPR] [] [("# x").toList]
      entryPRbad termPR (by decide) (by decide) rfl (by decide) (by decide)).2.1 (by decide),
   (strategy1_short_circuit (("f.po").toList) gmapPR [termPR] [((("f.po").toList), 1)]
      linesPR entryPRbad termPR (by decide) (by decide) rfl (by decide) (by decide)).2.2
     1 1 (by decide) (by decide)⟩

/-- C2: for a non-obsolete, non-empty entry whose id is exactly a glossary
key: an equal translation raises no exact-match issue (the entry falls
through to the strategy-2 scan), and an unequal translation yields the
exact-match suggestion with correctedTranslation = target and reason
KnownError exactly when the translation is one of the known errors, else
PolicyDeviation. -/
theorem exact_match_classification (p : Str) (gmap : Str → Option GlossaryTerm)
    (glist : List GlossaryTerm) (ex : List (Str × Nat)) (lines : List Str)
    (e : POEntry) (term : GlossaryTerm) (s en : Nat)
    (hid : e.msgid ≠ []) (hstr : e.msgstr ≠ []) (hobs : e.obsolete = false)
    (hmap : gmap e.msgid = some term)
    (hrange : findRangeCore lines e.linenum = some (s, en)) (hdup : (p, en) ∉ ex) :
    (e.msgstr = term.target → check_entry p gmap glist ex lines e
        = strategy2 p ex lines e glist) ∧
    (e.msgstr ≠ term.target → check_entry p gmap glist ex lines e
        = [⟨p, s, en, exactMatchBody e.msgid e.msgstr
            (if e.msgstr ∈ term.common_errors then kKnownError else kPolicyDeviation)
            term.target
            (format_msgstr_for_suggestion term.target (lwOf (lines.getD (s - 1) [])))⟩]) := by
  have hcond : ¬ (e.msgid = [] ∨ e.msgstr = [] ∨ e.obsolete = true) := by
    simp [hid, hstr, hobs]
  constructor
  · intro heq
    unfold check_entry
    rw [if_neg hcond]
    simp only [hmap]
    rw [if_neg (fun hx => hx heq)]
  · intro hne
    unfold check_entry
    rw [if_neg hcond]
    simp only [hmap, hrange]
    rw [if_pos hne, if_neg hdup]

/-- C2 witness: spec §8.1 and §8.2 — the entry equal to the target raises
no exact-match issue, the known-error entry yields the KnownError
suggestion with the canonical target. -/
theorem exact_match_classification_witness :
    check_entry (("f.po").toList) gmapPR [termPR] [] linesPR entryPRgood
      = strategy2 (("f.po").toList) [] linesPR entryPRgood [termPR] ∧
    check_entry (("f.po").toList) gmapPR [termPR] [] linesPR entryPRbad
      = [⟨("f.po").toList, 1, 1, exactMatchBody entryPRbad.msgid entryPRbad.msgstr
          (if entryPRbad.msgstr ∈ termPR.common_errors then kKnownError else kPolicyDeviation)
          termPR.target
          (format_msgstr_for_suggestion termPR.target (lwOf (linesPR.getD (1 - 1) [])))⟩] :=
  ⟨(exact_match_classification (("f.po").toList) gmapPR [termPR] [] linesPR entryPRgood
      termPR 1 1 (by decide) (by decide) rfl (by decide) (by decide) (by decide)).1 rfl,
   (exact_match_classification (("f.po").toList) gmapPR [termPR] [] linesPR entryPRbad
      termPR 1 1 (by decide) (by decide) rfl (by decide) (by decide) (by decide)).2 (by decide)⟩

/-- C1 counterexample: on a translation containing the known error twice,
the emitted correction replaces BOTH occurrences (`str.replace` replaces
all), not only the first as the claim states: the suggested text is
拉取請求，拉取請求, which differs from the first-occurrence-only result
拉取請求，合併請求. -/
theorem sentence_error_first_only_counterexample :
    check_entry (("zh.po").toList) gmapNone [termPR] [] linesTwice entryTwice
      = [⟨("zh.po").toList, 1, 1, sentenceBody (("合併請求").toList) termPR.source
          termPR.target
          (format_msgstr_for_suggestion (("拉取請求，拉取請求").toList) [])⟩] ∧
    pyReplace entryTwice.msgstr (("合併請求").toList) termPR.target
      = ("拉取請求，拉取請求").toList ∧
    (("拉取請求，拉取請求").toList : Str) ≠ ("拉取請求，合併請求").toList := by
  refine ⟨?_, ?_, ?_⟩ <;> decide

/-- C1 amended: for an entry classified by strategy 2 as SentenceError the
corrected translation is the entry translation with EVERY occurrence of
the matched known-error string replaced by the target (`pyReplace`), other
text unchanged, and scanning stops at this first violation: the result
does not depend on the remaining glossary terms `ts`. -/
theorem sentence_error_replaces_all_and_stops (p : Str) (ex : List (Str × Nat))
    (lines : List Str) (e : POEntry) (term : GlossaryTerm) (ts : List GlossaryTerm)
    (er : Str) (s en : Nat)
    (hwb : wordBoundarySearch term.source e.msgid = true)
    (hfind : term.common_errors.find? (fun x => ciContains e.msgstr x) = some er)
    (her : er ≠ []) (htgt : ciContains e.msgstr term.target = false)
    (hrange : findRangeCore lines e.linenum = some (s, en)) (hdup : (p, en) ∉ ex) :
    strategy2 p ex lines e (term :: ts)
      = [⟨p, s, en, sentenceBody er term.source term.target
          (format_msgstr_for_suggestion (pyReplace e.msgstr er term.target)
            (lwOf (lines.getD (s - 1) [])))⟩] := by
  simp only [strategy2, hwb, hfind, hrange, if_true]
  rw [if_pos (show ¬ er = [] ∧ ciContains e.msgstr term.target = false from ⟨her, htgt⟩),
    if_neg hdup]

/-- C1 amended witness: the double-error entry yields the all-occurrences
correction, with a non-empty tail of further glossary terms that is never
consulted. -/
theorem sentence_error_replaces_all_and_stops_witness :
    strategy2 (("zh.po").toList) [] linesTwice entryTwice [termPR, termABC]
      = [⟨("zh.po").toList, 1, 1, sentenceBody (("合併請求").toList) termPR.source
          termPR.target
          (format_msgstr_for_suggestion
            (pyReplace entryTwice.msgstr (("合併請求").toList) termPR.target)
            (lwOf (linesTwice.getD (1 - 1) [])))⟩] :=
  sentence_error_replaces_all_and_stops (("zh.po").toList) [] linesTwice entryTwice
    termPR [termABC] (("合併請求").toList) 1 1 (by decide) (by decide) (by decide)
    (by decide) (by decide) (by decide)

/-- C10: strategy 2 emits a SentenceError suggestion whose corrected
translation is identical to the original translation: the known error
`ABC` is detected case-insensitively in `xx abc yy`, but the replacement
is case-sensitive, so the patch changes nothing. -/
theorem noop_patch_case_mismatch :
    check_entry (("f.po").toList) gmapNone [termABC] [] linesABC entryABC
      = [⟨("f.po").toList, 1, 1, sentenceBody (("ABC").toList) termABC.source
          termABC.target (format_msgstr_for_suggestion entryABC.msgstr [])⟩] ∧
    pyReplace entryABC.msgstr (("ABC").toList) termABC.target = entryABC.msgstr := by
  constructor <;> decide

/-- C7 counterexample: a record with an empty source is silently skipped
(`continue`): loading succeeds and returns the map of the remaining
records; there is no MalformedGlossaryEntry failure (the function has no
failure outcome at all for such records). -/
theorem load_glossary_reject_counterexample :
    load_glossary [⟨some [], some (("拉取请求").toList), [("合併請求").toList]⟩,
        ⟨some (("Pull Request").toList), some (("拉取请求").toList),
         [("合併請求").toList]⟩]
      = [((("合併請求").toList), (("Pull Request").toList), (("拉取请求").toList))] := by
  decide

/-- C7 amended: `load_glossary` silently drops every record whose source or
correct field is missing or empty — the result is exactly the load of the
remaining records, with no error raised. -/
theorem load_glossary_silent_skip (pre post : List RawTerm) (bad : RawTerm)
    (hbad : bad.source = none ∨ bad.source = some [] ∨ bad.correct = none
      ∨ bad.correct = some []) :
    load_glossary (pre ++ bad :: post) = load_glossary (pre ++ post) := by
  obtain ⟨bs, bc, bm⟩ := bad
  unfold load_glossary
  rw [List.foldl_append, List.foldl_append, List.foldl_cons]
  congr 1
  rcases hbad with h | h | h | h
  · have h2 : bs = none := h
    subst h2
    rfl
  · have h2 : bs = some [] := h
    subst h2
    cases bc with
    | none => rfl
    | some c => simp
  · have h2 : bc = none := h
    subst h2
    cases bs with
    | none => rfl
    | some s2 => rfl
  · have h2 : bc = some [] := h
    subst h2
    cases bs with
    | none => rfl
    | some s2 => simp

/-- C7 amended witness: a record with an empty source placed between two
well-formed records contributes nothing. -/
theorem load_glossary_silent_skip_witness :
    load_glossary [⟨some (("Pull Request").toList), some (("拉取请求").toList),
        [("合併請求").toList]⟩,
      ⟨some [], some (("x").toList), [("y").toList]⟩,
      ⟨some (("Issue").toList), some (("議題").toList), [("問題").toList]⟩]
      = load_glossary [⟨some (("Pull Request").toList), some (("拉取请求").toList),
          [("合併請求").toList]⟩,
        ⟨some (("Issue").toList), some (("議題").toList), [("問題").toList]⟩] :=
  load_glossary_silent_skip
    [⟨some (("Pull Request").toList), some (("拉取请求").toList), [("合併請求").toList]⟩]
    [⟨some (("Issue").toList), some (("議題").toList), [("問題").toList]⟩]
    ⟨some [], some (("x").toList), [("y").toList]⟩
    (Or.inr (Or.inl rfl))

/-- C3: the patch formatter escapes every backslash and then every quote
(`escMap escChar` is the composite of the two passes); with no line break
in the text it emits the single line `<indent>msgstr "<text>"`, otherwise
an opening `<indent>msgstr ""` plus one quoted continuation line per
newline-separated segment, each ending with a literal `\n` marker except
the final segment which ends with just the closing quote; and re-parsing
(unescaping and concatenating) the emitted block reproduces the corrected
text exactly, for every input string.  `leading_whitespace` is captured
from a physical line, so it is whitespace without a newline. -/
theorem format_msgstr_roundtrip (text lw : Str)
    (hlw : ∀ c ∈ lw, c.isWhitespace = true) (hnl : '\n' ∉ lw) :
    parse_msgstr_block (format_msgstr_for_suggestion text lw) = text ∧
    ('\n' ∉ text → format_msgstr_for_suggestion text lw
        = lw ++ ("msgstr \"").toList ++ escMap escChar text ++ ['"']) ∧
    ('\n' ∈ text → format_msgstr_for_suggestion text lw
        = joinSep ['\n'] ((lw ++ ("msgstr \"\"").toList)
            :: (pySplit '\n' text).dropLast.map
                 (fun seg => lw ++ ['"'] ++ escMap escChar seg ++ ['\\', 'n', '"'])
            ++ [lw ++ ['"'] ++ escMap escChar ((pySplit '\n' text).getLastD [])
                ++ ['"']])) :=
  ⟨roundtrip_format text lw hlw hnl, format_single text lw, format_multi text lw⟩

/-- C3 witness: a corrected text containing a quote, a backslash and a
newline round-trips through formatting with a two-space indent. -/
theorem format_msgstr_roundtrip_witness :
    parse_msgstr_block (format_msgstr_for_suggestion (("a\"b\\c\nd").toList)
        (("  ").toList)) = ("a\"b\\c\nd").toList ∧
    ('\n' ∉ (("a\"b\\c\nd").toList : Str) →
      format_msgstr_for_suggestion (("a\"b\\c\nd").toList) (("  ").toList)
        = ("  ").toList ++ ("msgstr \"").toList
          ++ escMap escChar (("a\"b\\c\nd").toList) ++ ['"']) ∧
    ('\n' ∈ (("a\"b\\c\nd").toList : Str) →
      format_msgstr_for_suggestion (("a\"b\\c\nd").toList) (("  ").toList)
        = joinSep ['\n'] (((("  ").toList) ++ ("msgstr \"\"").toList)
            :: (pySplit '\n' (("a\"b\\c\nd").toList)).dropLast.map
                 (fun seg => (("  ").toList) ++ ['"'] ++ escMap escChar seg
                   ++ ['\\', 'n', '"'])
            ++ [(("  ").toList) ++ ['"']
                ++ escMap escChar ((pySplit '\n' (("a\"b\\c\nd").toList)).getLastD [])
                ++ ['"']])) :=
  format_msgstr_roundtrip (("a\"b\\c\nd").toList) (("  ").toList) (by decide) (by decide)

/-- C8 counterexample: on the case-mismatch scenario the run emits one
suggestion whose replacement block is byte-identical to the existing
physical line (a no-op patch) and re-parses to the unchanged translation;
hence after applying every emitted block the files are unchanged and a
further run yields the same non-empty suggestion list, not zero
suggestions. -/
theorem idempotent_after_patch_counterexample :
    check_po_file (("f.po").toList) gmapNone [termABC] [] linesABC [entryABC]
      = [⟨("f.po").toList, 1, 1, sentenceBody (("ABC").toList) termABC.source
          termABC.target (format_msgstr_for_suggestion entryABC.msgstr [])⟩] ∧
    format_msgstr_for_suggestion
        (pyReplace entryABC.msgstr (("ABC").toList) termABC.target)
        (lwOf (linesABC.getD 0 []))
      = linesABC.getD 0 [] ∧
    parse_msgstr_block (linesABC.getD 0 []) = entryABC.msgstr ∧
    check_po_file (("f.po").toList) gmapNone [termABC] [] linesABC [entryABC] ≠ [] := by
  refine ⟨?_, ?_, ?_, ?_⟩ <;> decide

/-- C8 amended: two runs of the engine on the same input are byte-identical
(the embedding is a pure function of its arguments); applying an
exact-match suggestion restores the canonical target on re-parse, and an
entry whose translation equals the target raises no exact-match
suggestion; but a strategy-2 no-op patch can recur (see the
counterexample), so a further run need not be suggestion-free. -/
theorem engine_determinism_and_exact_patch :
    (∀ (p : Str) (gm : Str → Option GlossaryTerm) (gl : List GlossaryTerm)
        (ex : List (Str × Nat)) (lines : List Str) (entries : List POEntry),
      check_po_file p gm gl ex lines entries = check_po_file p gm gl ex lines entries) ∧
    (∀ (term : GlossaryTerm) (lw : Str), (∀ c ∈ lw, c.isWhitespace = true) →
      '\n' ∉ lw →
      parse_msgstr_block (format_msgstr_for_suggestion term.target lw) = term.target) ∧
    (∀ (p : Str) (gm : Str → Option GlossaryTerm) (gl : List GlossaryTerm)
        (ex : List (Str × Nat)) (lines : List Str) (e : POEntry) (term : GlossaryTerm),
      gm e.msgid = some term → e.msgstr = term.target → e.msgid ≠ [] →
      e.msgstr ≠ [] → e.obsolete = false →
      check_entry p gm gl ex lines e = strategy2 p ex lines e gl) := by
  refine ⟨fun _ _ _ _ _ _ => rfl, ?_, ?_⟩
  · intro term lw h1 h2
    exact roundtrip_format term.target lw h1 h2
  · intro p gm gl ex lines e term hmap heq hid hstr hobs
    have hcond : ¬ (e.msgid = [] ∨ e.msgstr = [] ∨ e.obsolete = true) := by
      simp [hid, hstr, hobs]
    unfold check_entry
    rw [if_neg hcond]
    simp only [hmap]
    rw [if_neg (fun hx => hx heq)]

/-- C8 amended witness: determinism on the known-error file; the formatted
canonical target re-parses to itself; the entry already equal to the
target raises no exact-match suggestion. -/
theorem engine_determinism_and_exact_patch_witness :
    check_po_file (("f.po").toList) gmapPR [termPR] [] linesPR [entryPRbad]
      = check_po_file (("f.po").toList) gmapPR [termPR] [] linesPR [entryPRbad] ∧
    parse_msgstr_block (format_msgstr_for_suggestion termPR.target (("  ").toList))
      = termPR.target ∧
    check_entry (("f.po").toList) gmapPR [termPR] [] linesPR entryPRgood
      = strategy2 (("f.po").toList) [] linesPR entryPRgood [termPR] :=
  ⟨engine_determinism_and_exact_patch.1 (("f.po").toList) gmapPR [termPR] [] linesPR
     [entryPRbad],
   engine_determinism_and_exact_patch.2.1 termPR (("  ").toList) (by decide) (by decide),
   engine_determinism_and_exact_patch.2.2 (("f.po").toList) gmapPR [termPR] [] linesPR
     entryPRgood termPR (by decide) (by decide) (by decide) (by decide) rfl⟩
